import Mathlib

/-!
Verification development for the MCMC visualization core
(samplers RWMH / HMC / NUTS / MALA / Gibbs, the target-distribution
abstraction, and the Visualizer event sink).

Shallow embedding conventions:
* JS numbers are modelled as exact rationals (`ℚ`); float rounding,
  overflow, `NaN` and `±Infinity` do not arise in the model.
* `Math.random()` / `randn()` draws are passed in explicitly: each step
  function receives the values those calls return, in source order.
  Where the number of draws is dynamic (NUTS tree building) a stream
  with a cursor (`Rng`) is threaded exactly along the source's
  short-circuit evaluation order.
* `Math.exp` is transcendental, hence not available on `ℚ`; the NUTS
  code that calls it is parametrised by a function `mexp : ℚ → ℚ`
  standing for `Math.exp`.
* `Distribution` is the interface the samplers consume
  (src/distributions/Distribution.ts): `density`, `logDensity`,
  `gradient`, `bounds` are carried as function fields (the base class
  derives `logDensity`/`gradient` from `density` via `Math.log` and
  finite differences, both transcendental-valued; the samplers only
  ever call the interface, so the fields are kept abstract).
  `ldFinite p` records the value of the runtime test
  `isFinite(logDensity(p))`, which exact arithmetic cannot observe.
-/

/-- 2-D point, src/core/utils.ts `Vector2`. -/
@[ext]
structure Vector2 where
  x : ℚ
  y : ℚ
deriving DecidableEq, Repr

/-- src/core/utils.ts `vectorDot`. -/
def vectorDot (v1 v2 : Vector2) : ℚ :=
  v1.x * v2.x + v1.y * v2.y

/-- src/core/utils.ts `vectorSubtract`. -/
def vectorSubtract (v1 v2 : Vector2) : Vector2 :=
  ⟨v1.x - v2.x, v1.y - v2.y⟩

/-- src/core/utils.ts `vectorNegate`. -/
def vectorNegate (v : Vector2) : Vector2 :=
  ⟨-v.x, -v.y⟩

/-- Rectangular bound record, src/distributions/Distribution.ts `Bounds`. -/
structure Bounds where
  xMin : ℚ
  xMax : ℚ
  yMin : ℚ
  yMax : ℚ
deriving DecidableEq, Repr

/-- The distribution interface consumed by every sampler
(src/distributions/Distribution.ts).  `ldFinite p` is the value of the
runtime check `isFinite(logDensity(p))` (see file header). -/
structure Distribution where
  density : Vector2 → ℚ
  logDensity : Vector2 → ℚ
  ldFinite : Vector2 → Bool
  gradient : Vector2 → Vector2
  bounds : Bounds

/-- `Distribution.marginalX` (src/distributions/Distribution.ts):
midpoint-rule integration of `density` over the Y bound with `steps`
quadrature steps. -/
def Distribution.marginalX (d : Distribution) (x : ℚ) (steps : ℕ) : ℚ :=
  let dy := (d.bounds.yMax - d.bounds.yMin) / steps
  (∑ i ∈ Finset.range steps,
    d.density ⟨x, d.bounds.yMin + ((i : ℚ) + 1/2) * dy⟩) * dy

/-- `Distribution.marginalY` (src/distributions/Distribution.ts). -/
def Distribution.marginalY (d : Distribution) (y : ℚ) (steps : ℕ) : ℚ :=
  let dx := (d.bounds.xMax - d.bounds.xMin) / steps
  (∑ i ∈ Finset.range steps,
    d.density ⟨d.bounds.xMin + ((i : ℚ) + 1/2) * dx, y⟩) * dx

/-- Visualization event (src/core/Visualizer.ts `VisualizationEvent`).
Optional fields of the TS union become `Option`s. -/
inductive VisualizationEvent where
  | proposal (fromPos toPos : Vector2) (radius : Option ℚ)
  | accept (position : Vector2)
  | reject (position : Vector2)
  | trajectory (path : List Vector2) (momentum : Option Vector2)
  | gradient (position direction : Vector2)
  | langevin (gradient driftPoint : Vector2) (noiseRadius : ℚ)
  | particles (points : List Vector2) (weights : List ℚ)
deriving DecidableEq, Repr

/-- Sampler state of `RandomWalkMH` (src/algorithms/RandomWalkMH.ts):
parameter `sigma` plus the private fields. -/
structure RandomWalkMH where
  sigma : ℚ
  chain : List Vector2
  distribution : Option Distribution
  acceptCount : ℕ
  totalSteps : ℕ

/-- `RandomWalkMH.reset` (chain ← [start or origin], counters zeroed). -/
def RandomWalkMH.reset (s : RandomWalkMH) (initialPosition : Option Vector2) :
    RandomWalkMH :=
  { s with
    chain := [initialPosition.getD ⟨0, 0⟩]
    acceptCount := 0
    totalSteps := 0 }

/-- `RandomWalkMH.step`.  `r1`, `r2` are the two `randn()` draws and
`lnU` the value of `Math.log(Math.random())`.  Returns the new sampler
state together with the events pushed onto `visualizer.queue`, in
order. -/
def RandomWalkMH.step (s : RandomWalkMH) (r1 r2 lnU : ℚ) :
    RandomWalkMH × List VisualizationEvent :=
  match s.distribution, s.chain.getLast? with
  | some dist, some current =>
    let proposal : Vector2 :=
      ⟨current.x + r1 * s.sigma, current.y + r2 * s.sigma⟩
    let logAlpha := dist.logDensity proposal - dist.logDensity current
    let accept := lnU < logAlpha
    if accept then
      ({ s with
          chain := s.chain ++ [proposal]
          acceptCount := s.acceptCount + 1
          totalSteps := s.totalSteps + 1 },
        [.proposal current proposal (some s.sigma), .accept proposal])
    else
      ({ s with
          chain := s.chain ++ [current]
          totalSteps := s.totalSteps + 1 },
        [.proposal current proposal (some s.sigma), .reject proposal])
  | _, _ => (s, [])

/-- `RandomWalkMH.getAcceptanceRate`. -/
def RandomWalkMH.getAcceptanceRate (s : RandomWalkMH) : ℚ :=
  if s.totalSteps = 0 then 0 else (s.acceptCount : ℚ) / (s.totalSteps : ℚ)

/-- N sequential `RandomWalkMH.step` calls; `draws n` supplies the
random values consumed by the n-th call. -/
def RandomWalkMH.stepN (s : RandomWalkMH) (draws : ℕ → ℚ × ℚ × ℚ) :
    ℕ → RandomWalkMH
  | 0 => s
  | n + 1 =>
    let s1 := (RandomWalkMH.stepN s draws n)
    (s1.step (draws n).1 (draws n).2.1 (draws n).2.2).1

/-- Sampler state of `HamiltonianMC` (src/algorithms/HamiltonianMC.ts). -/
structure HamiltonianMC where
  epsilon : ℚ
  L : ℕ
  chain : List Vector2
  distribution : Option Distribution
  acceptCount : ℕ
  totalSteps : ℕ

/-- `HamiltonianMC.reset`. -/
def HamiltonianMC.reset (s : HamiltonianMC) (initialPosition : Option Vector2) :
    HamiltonianMC :=
  { s with
    chain := [initialPosition.getD ⟨0, 0⟩]
    acceptCount := 0
    totalSteps := 0 }

/-- `HamiltonianMC.kineticEnergy`: K(p) = ½‖p‖². -/
def HamiltonianMC.kineticEnergy (p : Vector2) : ℚ :=
  1/2 * (p.x * p.x + p.y * p.y)

/-- `HamiltonianMC.potentialEnergy`: U(q) = −logDensity(q) (the
distribution is already resolved here; the `null` guard lives in
`step`). -/
def HamiltonianMC.potentialEnergy (dist : Distribution) (q : Vector2) : ℚ :=
  -dist.logDensity q

/-- `HamiltonianMC.leapfrogStep`: one symplectic leapfrog step of size
`epsilon` — half-step momentum, full-step position, half-step
momentum. -/
def HamiltonianMC.leapfrogStep (dist : Distribution) (epsilon : ℚ)
    (q p : Vector2) : Vector2 × Vector2 :=
  let grad := dist.gradient q
  let pHalf : Vector2 :=
    ⟨p.x + 1/2 * epsilon * grad.x, p.y + 1/2 * epsilon * grad.y⟩
  let qNew : Vector2 :=
    ⟨q.x + epsilon * pHalf.x, q.y + epsilon * pHalf.y⟩
  let gradNew := dist.gradient qNew
  let pNew : Vector2 :=
    ⟨pHalf.x + 1/2 * epsilon * gradNew.x, pHalf.y + 1/2 * epsilon * gradNew.y⟩
  (qNew, pNew)

/-- The integration loop inside `HamiltonianMC.step`: `n` leapfrog
steps from `(q, p)`, returning the final `(q, p)` and the list of the
`n` positions pushed onto `trajectory` (the initial point is prepended
by the caller, as in the source). -/
def HamiltonianMC.integrate (dist : Distribution) (epsilon : ℚ) :
    ℕ → Vector2 → Vector2 → (Vector2 × Vector2) × List Vector2
  | 0, q, p => ((q, p), [])
  | n + 1, q, p =>
    let r := HamiltonianMC.leapfrogStep dist epsilon q p
    let rest := HamiltonianMC.integrate dist epsilon n r.1 r.2
    (rest.1, r.1 :: rest.2)

/-- `HamiltonianMC.step`.  `rp1`, `rp2` are the two `randn()` draws for
the fresh momentum and `lnU` the value of `Math.log(Math.random())`.
The trajectory event is pushed exactly as in the source: path only, no
momentum field.  `isFinite(proposedH)` is modelled by `ldFinite` at
the final position (the kinetic term is finite in exact arithmetic). -/
def HamiltonianMC.step (s : HamiltonianMC) (rp1 rp2 lnU : ℚ) :
    HamiltonianMC × List VisualizationEvent :=
  match s.distribution, s.chain.getLast? with
  | some dist, some current =>
    let p0 : Vector2 := ⟨rp1, rp2⟩
    let currentH :=
      HamiltonianMC.potentialEnergy dist current + HamiltonianMC.kineticEnergy p0
    let res := HamiltonianMC.integrate dist s.epsilon s.L current p0
    let q := res.1.1
    let trajectory := current :: res.2
    let p : Vector2 := ⟨-res.1.2.x, -res.1.2.y⟩
    let proposedH :=
      HamiltonianMC.potentialEnergy dist q + HamiltonianMC.kineticEnergy p
    let logAlpha := currentH - proposedH
    let accept := lnU < logAlpha ∧ dist.ldFinite q = true
    if accept then
      ({ s with
          chain := s.chain ++ [q]
          acceptCount := s.acceptCount + 1
          totalSteps := s.totalSteps + 1 },
        [.trajectory trajectory none, .proposal current q none, .accept q])
    else
      ({ s with
          chain := s.chain ++ [current]
          totalSteps := s.totalSteps + 1 },
        [.trajectory trajectory none, .proposal current q none, .reject q])
  | _, _ => (s, [])

/-- N sequential `HamiltonianMC.step` calls. -/
def HamiltonianMC.stepN (s : HamiltonianMC) (draws : ℕ → ℚ × ℚ × ℚ) :
    ℕ → HamiltonianMC
  | 0 => s
  | n + 1 =>
    let s1 := (HamiltonianMC.stepN s draws n)
    (s1.step (draws n).1 (draws n).2.1 (draws n).2.2).1

/-- Sampler state of `LangevinMC` (src/algorithms/LangevinMC.ts). -/
structure LangevinMC where
  epsilon : ℚ
  chain : List Vector2
  distribution : Option Distribution
  acceptCount : ℕ
  totalSteps : ℕ

/-- `LangevinMC.reset`. -/
def LangevinMC.reset (s : LangevinMC) (initialPosition : Option Vector2) :
    LangevinMC :=
  { s with
    chain := [initialPosition.getD ⟨0, 0⟩]
    acceptCount := 0
    totalSteps := 0 }

/-- `LangevinMC.proposalMean`: μ(q) = q + (ε/2)·∇ log π(q). -/
def LangevinMC.proposalMean (dist : Distribution) (epsilon : ℚ)
    (q : Vector2) : Vector2 :=
  let grad := dist.gradient q
  ⟨q.x + epsilon / 2 * grad.x, q.y + epsilon / 2 * grad.y⟩

/-- `LangevinMC.logProposalDensity`: log q(to|from) = −‖to − μ(from)‖² / (2ε). -/
def LangevinMC.logProposalDensity (dist : Distribution) (epsilon : ℚ)
    (f t : Vector2) : ℚ :=
  let mean := LangevinMC.proposalMean dist epsilon f
  let dx := t.x - mean.x
  let dy := t.y - mean.y;
  -(dx * dx + dy * dy) / (2 * epsilon)

/-- `LangevinMC.step`.  `sq` stands for the value of
`Math.sqrt(this.epsilon)` (the square root of a rational is
transcendental in general, so the computed noise scale is passed in);
`r1`, `r2` are the `randn()` draws and `lnU` is
`Math.log(Math.random())`. -/
def LangevinMC.step (s : LangevinMC) (sq r1 r2 lnU : ℚ) :
    LangevinMC × List VisualizationEvent :=
  match s.distribution, s.chain.getLast? with
  | some dist, some current =>
    let mean := LangevinMC.proposalMean dist s.epsilon current
    let proposal : Vector2 := ⟨mean.x + r1 * sq, mean.y + r2 * sq⟩
    let grad := dist.gradient current
    let logPiProposal := dist.logDensity proposal
    let logPiCurrent := dist.logDensity current
    let logQForward := LangevinMC.logProposalDensity dist s.epsilon current proposal
    let logQBackward := LangevinMC.logProposalDensity dist s.epsilon proposal current
    let logAlpha := logPiProposal - logPiCurrent + logQBackward - logQForward
    let accept := lnU < logAlpha ∧ dist.ldFinite proposal = true
    if accept then
      ({ s with
          chain := s.chain ++ [proposal]
          acceptCount := s.acceptCount + 1
          totalSteps := s.totalSteps + 1 },
        [.langevin grad mean sq, .proposal current proposal none,
          .accept proposal])
    else
      ({ s with
          chain := s.chain ++ [current]
          totalSteps := s.totalSteps + 1 },
        [.langevin grad mean sq, .proposal current proposal none,
          .reject proposal])
  | _, _ => (s, [])

/-- N sequential `LangevinMC.step` calls. -/
def LangevinMC.stepN (s : LangevinMC) (draws : ℕ → ℚ × ℚ × ℚ × ℚ) :
    ℕ → LangevinMC
  | 0 => s
  | n + 1 =>
    let s1 := (LangevinMC.stepN s draws n)
    (s1.step (draws n).1 (draws n).2.1 (draws n).2.2.1 (draws n).2.2.2).1

/-- Stream-with-cursor model of the ambient random source: `next`
returns the value of one `Math.random()` / `randn()` call and advances
the cursor.  Draws are consumed exactly where the source calls the
generator, including inside short-circuited `&&`. -/
structure Rng where
  stream : ℕ → ℚ
  idx : ℕ

/-- Consume one random draw. -/
def Rng.next (r : Rng) : ℚ × Rng :=
  (r.stream r.idx, ⟨r.stream, r.idx + 1⟩)

/-- `TreeState` (src/algorithms/NUTS.ts): result record of `buildTree`. -/
structure TreeState where
  qMinus : Vector2
  pMinus : Vector2
  qPlus : Vector2
  pPlus : Vector2
  qPrime : Vector2
  nPrime : ℕ
  sPrime : Bool
  alphaPrime : ℚ
  nAlphaPrime : ℕ

/-- Sampler state of `NUTS` (src/algorithms/NUTS.ts). -/
structure NUTSState where
  epsilon : ℚ
  maxTreeDepth : ℕ
  deltaMax : ℚ
  chain : List Vector2
  distribution : Option Distribution
  acceptCount : ℕ
  totalSteps : ℕ

/-- `NUTS.reset`. -/
def NUTS.reset (s : NUTSState) (initialPosition : Option Vector2) : NUTSState :=
  { s with
    chain := [initialPosition.getD ⟨0, 0⟩]
    acceptCount := 0
    totalSteps := 0 }

/-- `NUTS.hamiltonian`: H(q, p) = U(q) + K(p), with the same potential
and kinetic terms as HMC. -/
def NUTS.hamiltonian (dist : Distribution) (q p : Vector2) : ℚ :=
  HamiltonianMC.potentialEnergy dist q + HamiltonianMC.kineticEnergy p

/-- `NUTS.leapfrog`: one leapfrog step of the given (possibly negative)
step size. -/
def NUTS.leapfrog (dist : Distribution) (q p : Vector2) (epsilon : ℚ) :
    Vector2 × Vector2 :=
  let grad := dist.gradient q
  let pHalf : Vector2 :=
    ⟨p.x + 1/2 * epsilon * grad.x, p.y + 1/2 * epsilon * grad.y⟩
  let qNew : Vector2 :=
    ⟨q.x + epsilon * pHalf.x, q.y + epsilon * pHalf.y⟩
  let gradNew := dist.gradient qNew
  let pNew : Vector2 :=
    ⟨pHalf.x + 1/2 * epsilon * gradNew.x, pHalf.y + 1/2 * epsilon * gradNew.y⟩
  (qNew, pNew)

/-- `NUTS.checkUTurn`: returns `true` (continue expansion) iff both dot
products of the span `qPlus − qMinus` with the boundary momenta are
non-negative. -/
def NUTS.checkUTurn (qMinus qPlus pMinus pPlus : Vector2) : Bool :=
  let dq := vectorSubtract qPlus qMinus
  decide (0 ≤ vectorDot dq pMinus) && decide (0 ≤ vectorDot dq pPlus)

/-- `NUTS.buildTree`: recursive binary-tree doubling.  `mexp` stands
for `Math.exp`; `v ∈ {−1, +1}` is the expansion direction.  The base
case performs one leapfrog of size `v·ε` and consumes no draw; the
recursive case consumes one draw for the proposal swap only when
`nTotal > 0`, matching the source's short-circuited condition.  (The
source's `isNaN(alphaPrime)` fallback is unreachable in exact
arithmetic and is omitted.) -/
def NUTS.buildTree (dist : Distribution) (deltaMax : ℚ) (mexp : ℚ → ℚ)
    (q p : Vector2) (u : ℚ) (v : ℤ) : ℕ → ℚ → ℚ → Rng → TreeState × Rng
  | 0, epsilon, H0, rng =>
    let result := NUTS.leapfrog dist q p ((v : ℚ) * epsilon)
    let qPrime := result.1
    let pPrime := result.2
    let HPrime := NUTS.hamiltonian dist qPrime pPrime
    let nPrime : ℕ := if u ≤ mexp (H0 - HPrime) then 1 else 0
    let sPrime : Bool := decide (HPrime - H0 < deltaMax)
    let alphaPrime := min 1 (mexp (H0 - HPrime))
    (⟨qPrime, pPrime, qPrime, pPrime, qPrime, nPrime, sPrime, alphaPrime, 1⟩,
      rng)
  | j + 1, epsilon, H0, rng =>
    let tr := NUTS.buildTree dist deltaMax mexp q p u v j epsilon H0 rng
    let tree := tr.1
    let rng := tr.2
    if tree.sPrime = false then (tree, rng) else
    let tr2 :=
      if v = -1 then
        NUTS.buildTree dist deltaMax mexp tree.qMinus tree.pMinus u v j
          epsilon H0 rng
      else
        NUTS.buildTree dist deltaMax mexp tree.qPlus tree.pPlus u v j
          epsilon H0 rng
    let tree2 := tr2.1
    let rng := tr2.2
    let nTotal := tree.nPrime + tree2.nPrime
    let sel :=
      if 0 < nTotal then
        let d := rng.next
        (if d.1 < (tree2.nPrime : ℚ) / (nTotal : ℚ) then tree2.qPrime
          else tree.qPrime, d.2)
      else (tree.qPrime, rng)
    let qPrime := sel.1
    let rng := sel.2
    let qMinus := if v = -1 then tree2.qMinus else tree.qMinus
    let pMinus := if v = -1 then tree2.pMinus else tree.pMinus
    let qPlus := if v = 1 then tree2.qPlus else tree.qPlus
    let pPlus := if v = 1 then tree2.pPlus else tree.pPlus
    let sPrime := tree2.sPrime && NUTS.checkUTurn qMinus qPlus pMinus pPlus
    (⟨qMinus, pMinus, qPlus, pPlus, qPrime, nTotal, sPrime,
        tree.alphaPrime + tree2.alphaPrime,
        tree.nAlphaPrime + tree2.nAlphaPrime⟩,
      rng)

/-- Running state of the outer doubling loop in `NUTS.step`:
boundary states, running sample `q`, valid-point count `n`, stop flag
`s` and depth `j`. -/
structure NutsLoopState where
  qMinus : Vector2
  pMinus : Vector2
  qPlus : Vector2
  pPlus : Vector2
  q : Vector2
  n : ℕ
  s : Bool
  j : ℕ

/-- The running-sample update of the outer loop (NUTS.ts line 208):
`if (tree.sPrime && Math.random() < tree.nPrime / n) q = tree.qPrime`.
The draw is consumed only when `tree.sPrime` holds (short-circuit);
`n` is the count accumulated before this doubling. -/
def NUTS.sampleUpdate (tree : TreeState) (n : ℕ) (q : Vector2) (rng : Rng) :
    Vector2 × Rng :=
  if tree.sPrime then
    let d := rng.next
    (if d.1 < (tree.nPrime : ℚ) / (n : ℚ) then tree.qPrime else q, d.2)
  else (q, rng)

/-- Merging one freshly built half-tree into the outer loop state
(lines 198–214): extend the boundary on the chosen side, maybe adopt
the half-tree's proposal (`sampleUpdate`), accumulate the valid-point
count `n ← n + nPrime`, recompute the stop flag from the half-tree's
flag and the boundary U-turn test, and increment the depth. -/
def NUTS.combine (st : NutsLoopState) (v : ℤ) (tree : TreeState)
    (rng : Rng) : NutsLoopState × Rng :=
  let qMinus := if v = -1 then tree.qMinus else st.qMinus
  let pMinus := if v = -1 then tree.pMinus else st.pMinus
  let qPlus := if v = -1 then st.qPlus else tree.qPlus
  let pPlus := if v = -1 then st.pPlus else tree.pPlus
  let upd := NUTS.sampleUpdate tree st.n st.q rng
  let n := st.n + tree.nPrime
  let s := tree.sPrime && NUTS.checkUTurn qMinus qPlus pMinus pPlus
  (⟨qMinus, pMinus, qPlus, pPlus, upd.1, n, s, st.j + 1⟩, upd.2)

/-- One iteration of the outer doubling loop in `NUTS.step` (lines
194–214): choose a direction, build the half-tree from the matching
boundary, and merge it with `NUTS.combine`. -/
def NUTS.outerBody (dist : Distribution) (deltaMax : ℚ) (mexp : ℚ → ℚ)
    (epsilon u H0 : ℚ) (st : NutsLoopState) (rng : Rng) :
    NutsLoopState × Rng :=
  let dv := rng.next
  let v : ℤ := if dv.1 < 1/2 then -1 else 1
  let rng := dv.2
  let br :=
    if v = -1 then
      NUTS.buildTree dist deltaMax mexp st.qMinus st.pMinus u v st.j epsilon
        H0 rng
    else
      NUTS.buildTree dist deltaMax mexp st.qPlus st.pPlus u v st.j epsilon
        H0 rng
  NUTS.combine st v br.1 br.2

/-- The outer `while (s && j < maxTreeDepth)` loop, driven by the
remaining iteration budget `rem = maxTreeDepth − j` (the depth `j` in
the state increases in lock step as `rem` decreases). -/
def NUTS.outerLoop (dist : Distribution) (deltaMax : ℚ) (mexp : ℚ → ℚ)
    (epsilon u H0 : ℚ) : NutsLoopState → ℕ → Rng → NutsLoopState × Rng
  | st, 0, rng => (st, rng)
  | st, rem + 1, rng =>
    if st.s then
      let r := NUTS.outerBody dist deltaMax mexp epsilon u H0 st rng
      NUTS.outerLoop dist deltaMax mexp epsilon u H0 r.1 rem r.2
    else (st, rng)

/-- `NUTS.step`.  Draw order matches the source: two `randn()` draws
for the momentum, one `Math.random()` for the slice variable, then the
loop's draws. -/
def NUTS.step (s : NUTSState) (mexp : ℚ → ℚ) (rng : Rng) :
    NUTSState × List VisualizationEvent × Rng :=
  match s.distribution, s.chain.getLast? with
  | some dist, some q0 =>
    let d1 := rng.next
    let d2 := d1.2.next
    let p0 : Vector2 := ⟨d1.1, d2.1⟩
    let rng := d2.2
    let H0 := NUTS.hamiltonian dist q0 p0
    let du := rng.next
    let u := du.1 * mexp (-H0)
    let rng := du.2
    let st0 : NutsLoopState := ⟨q0, p0, q0, p0, q0, 1, true, 0⟩
    let lr := NUTS.outerLoop dist s.deltaMax mexp s.epsilon u H0 st0
      s.maxTreeDepth rng
    let q := lr.1.q
    let rng := lr.2
    let accepted : Bool := decide (q.x ≠ q0.x) || decide (q.y ≠ q0.y)
    if accepted then
      ({ s with
          chain := s.chain ++ [q]
          acceptCount := s.acceptCount + 1
          totalSteps := s.totalSteps + 1 },
        [.proposal q0 q none, .accept q], rng)
    else
      ({ s with
          chain := s.chain ++ [q0]
          totalSteps := s.totalSteps + 1 },
        [.proposal q0 q none, .reject q], rng)
  | _, _ => (s, [], rng)

/-- N sequential `NUTS.step` calls, threading the random stream. -/
def NUTS.stepN (s : NUTSState) (mexp : ℚ → ℚ) (rng : Rng) :
    ℕ → NUTSState × Rng
  | 0 => (s, rng)
  | n + 1 =>
    let r := NUTS.stepN s mexp rng n
    let r2 := NUTS.step r.1 mexp r.2
    (r2.1, r2.2.2)

/-- Sampler state of `GibbsSampler` (src/algorithms/GibbsSampler.ts). -/
structure GibbsSampler where
  gridResolution : ℕ
  chain : List Vector2
  distribution : Option Distribution

/-- `GibbsSampler.reset` (no acceptance counters exist on this class). -/
def GibbsSampler.reset (s : GibbsSampler) (initialPosition : Option Vector2) :
    GibbsSampler :=
  { s with chain := [initialPosition.getD ⟨0, 0⟩] }

/-- The inverse-CDF scan shared by both conditional samplers
(GibbsSampler.ts lines 87–95): walk the per-bin densities accumulating
`cumsum`, returning the first bin index at which `cumsum >= u`, or
`none` when the scan falls through. -/
def GibbsSampler.scanCdf (u : ℚ) : List ℚ → ℚ → ℕ → Option ℕ
  | [], _, _ => none
  | d :: rest, cumsum, i =>
    if u ≤ cumsum + d then some i
    else GibbsSampler.scanCdf u rest (cumsum + d) (i + 1)

/-- `GibbsSampler.sampleConditionalX`: discretize the X bound into `n`
bins, evaluate the density at bin centres with Y fixed, and draw by
inverse CDF.  `urand` is the `Math.random()` for `u = urand * total`;
`jitter` is the `Math.random()` drawn inside the bin on a hit; the
fall-through returns `xMax − dx/2`. -/
def GibbsSampler.sampleConditionalX (dist : Distribution) (n : ℕ)
    (yFixed : ℚ) (bounds : Bounds) (urand jitter : ℚ) : ℚ :=
  let dx := (bounds.xMax - bounds.xMin) / n
  let densities := (List.range n).map
    (fun (i : ℕ) => dist.density ⟨bounds.xMin + ((i : ℚ) + 1/2) * dx, yFixed⟩)
  let total := densities.sum
  let u := urand * total
  match GibbsSampler.scanCdf u densities 0 0 with
  | some i => bounds.xMin + ((i : ℚ) + jitter) * dx
  | none => bounds.xMax - dx / 2

/-- `GibbsSampler.sampleConditionalY`, symmetric in Y. -/
def GibbsSampler.sampleConditionalY (dist : Distribution) (n : ℕ)
    (xFixed : ℚ) (bounds : Bounds) (urand jitter : ℚ) : ℚ :=
  let dy := (bounds.yMax - bounds.yMin) / n
  let densities := (List.range n).map
    (fun (i : ℕ) => dist.density ⟨xFixed, bounds.yMin + ((i : ℚ) + 1/2) * dy⟩)
  let total := densities.sum
  let u := urand * total
  match GibbsSampler.scanCdf u densities 0 0 with
  | some i => bounds.yMin + ((i : ℚ) + jitter) * dy
  | none => bounds.yMax - dy / 2

/-- `GibbsSampler.step`: one full (x, y) sweep — two exact conditional
draws, each emitted as a proposal+accept pair; the chain advances by
exactly one point. -/
def GibbsSampler.step (s : GibbsSampler) (ur1 j1 ur2 j2 : ℚ) :
    GibbsSampler × List VisualizationEvent :=
  match s.distribution, s.chain.getLast? with
  | some dist, some current =>
    let bounds := dist.bounds
    let newX := GibbsSampler.sampleConditionalX dist s.gridResolution
      current.y bounds ur1 j1
    let intermediate : Vector2 := ⟨newX, current.y⟩
    let newY := GibbsSampler.sampleConditionalY dist s.gridResolution
      newX bounds ur2 j2
    let next : Vector2 := ⟨newX, newY⟩
    ({ s with chain := s.chain ++ [next] },
      [.proposal current intermediate none, .accept intermediate,
        .proposal intermediate next none, .accept next])
  | _, _ => (s, [])

/-- Snapshot-plus-queue state of the event sink
(src/core/Visualizer.ts, the revision with trajectory animation; the
claims' cited lines 224–230 / 247–265 / 276–286 / 349–365 are from
it).  Visual settings with no algorithmic role are omitted except
`animateTrajectory`, which the trajectory fold reads.
`maxTrailLength` is `_maxTrailLength` (trail capacities are whole
numbers; the control surface steps it in tens). -/
structure Visualizer where
  queue : List VisualizationEvent
  currentPosition : Option Vector2
  proposalPosition : Option Vector2
  proposalRadius : ℚ
  acceptedSamples : List Vector2
  allSamples : List Vector2
  trajectoryPath : Option (List Vector2)
  fullTrajectoryPath : Option (List Vector2)
  trajectoryAnimationIndex : ℕ
  animateTrajectory : Bool
  momentum : Option Vector2
  langevinGradient : Option Vector2
  langevinDriftPoint : Option Vector2
  langevinNoiseRadius : ℚ
  maxTrailLength : ℕ
  flashAccept : Bool
  flashReject : Bool
  proposalAccepted : Option Bool
  pendingPosition : Option Vector2
  pendingSample : Option Vector2

/-- The construction-time field values of `Visualizer` that the model
carries (queue empty, snapshot cleared, capacity 500, flags false). -/
def Visualizer.initial : Visualizer :=
  ⟨[], none, none, 0, [], [], none, none, 0, true, none, none, none, 0,
    500, false, false, none, none, none⟩

/-- `Visualizer.processEvent`.  The `setTimeout` that lowers a flash
flag 200 ms later is external timing, outside the fold; within the
fold the flag is simply raised, as in the source. -/
def Visualizer.processEvent (s : Visualizer) (e : VisualizationEvent) :
    Visualizer :=
  match e with
  | .proposal _ toPos radius =>
    { s with
      proposalPosition := some toPos
      proposalRadius := radius.getD 0
      proposalAccepted := none }
  | .accept position =>
    { s with
      pendingPosition := some position
      pendingSample := some position
      allSamples := s.allSamples ++ [position]
      proposalAccepted := some true
      flashAccept := true }
  | .reject _ =>
    { s with
      proposalAccepted := some false
      flashReject := true }
  | .trajectory path momentum =>
    if s.animateTrajectory ∧ 1 < path.length then
      { s with
        momentum := momentum
        fullTrajectoryPath := some path
        trajectoryAnimationIndex := 1
        trajectoryPath := some (path.take 2) }
    else
      { s with
        momentum := momentum
        fullTrajectoryPath := none
        trajectoryAnimationIndex := 0
        trajectoryPath := some path }
  | .gradient _ _ => s
  | .langevin gradient driftPoint noiseRadius =>
    { s with
      langevinGradient := some gradient
      langevinDriftPoint := some driftPoint
      langevinNoiseRadius := noiseRadius }
  | .particles _ _ => s

/-- The pending-update prologue of `Visualizer.dequeueAll` (lines
248–259): apply the previous step's accepted position to
`currentPosition` and push it onto the trail, evicting the oldest
entry when the capacity is exceeded (a single conditional shift). -/
def Visualizer.applyPending (s : Visualizer) : Visualizer :=
  let s1 :=
    match s.pendingPosition with
    | some p => { s with currentPosition := some p, pendingPosition := none }
    | none => s
  match s1.pendingSample with
  | some sample =>
    let trail := s1.acceptedSamples ++ [sample]
    { s1 with
      acceptedSamples :=
        if s1.maxTrailLength < trail.length then trail.drop 1 else trail
      pendingSample := none }
  | none => s1

/-- `Visualizer.dequeueAll`: apply pending updates, then drain the
queue through `processEvent` in FIFO order (events never push onto the
queue, so the shift loop is a left fold). -/
def Visualizer.dequeueAll (s : Visualizer) : Visualizer :=
  let s1 := Visualizer.applyPending s
  { s1.queue.foldl Visualizer.processEvent { s1 with queue := [] } with
    queue := [] }

/-- `Visualizer.reset` (lines 349–365): the exact assignment list of
the source — note it does not touch `proposalRadius`, `flashAccept` or
`flashReject`. -/
def Visualizer.reset (s : Visualizer) : Visualizer :=
  { s with
    queue := []
    currentPosition := none
    proposalPosition := none
    pendingPosition := none
    pendingSample := none
    proposalAccepted := none
    acceptedSamples := []
    allSamples := []
    trajectoryPath := none
    fullTrajectoryPath := none
    trajectoryAnimationIndex := 0
    momentum := none
    langevinGradient := none
    langevinDriftPoint := none
    langevinNoiseRadius := 0 }

/-- The `maxTrailLength` setter (lines 224–230): store the new
capacity and shift until the trail fits it. -/
def Visualizer.setMaxTrailLength (s : Visualizer) (value : ℕ) : Visualizer :=
  { s with
    maxTrailLength := value
    acceptedSamples :=
      s.acceptedSamples.drop (s.acceptedSamples.length - value) }

/-- Effect of `Simulation.initialize` (Simulation.ts lines 35–49) on
the visualizer: `visualizer.reset()` followed by seeding
`currentPosition`, `acceptedSamples` and `allSamples` from the freshly
reset chain's single entry `start` (`algorithm.reset()` makes the
chain `[origin]`, so the nonempty guard passes).
`Simulation.setStartPosition` performs the same visualizer writes. -/
def Simulation.initVis (s : Visualizer) (start : Vector2) : Visualizer :=
  { Visualizer.reset s with
    currentPosition := some start
    acceptedSamples := [start]
    allSamples := [start] }

/-- Operations on the visualizer considered by the trail-capacity
invariant: pushing an event onto the queue (done by sampler steps),
folding (`dequeueAll`), assigning the capacity, `reset`, and a
simulation initialization. -/
inductive VisOp where
  | push (e : VisualizationEvent)
  | fold
  | setCap (value : ℕ)
  | reset
  | initSim (start : Vector2)

/-- Apply one operation to the visualizer state. -/
def VisOp.apply (s : Visualizer) : VisOp → Visualizer
  | .push e => { s with queue := s.queue ++ [e] }
  | .fold => Visualizer.dequeueAll s
  | .setCap value => Visualizer.setMaxTrailLength s value
  | .reset => Visualizer.reset s
  | .initSim start => Simulation.initVis s start

/-- Run a sequence of visualizer operations from a state. -/
def VisOp.run (s : Visualizer) (ops : List VisOp) : Visualizer :=
  ops.foldl VisOp.apply s

/-- Helper: a nonempty list has a last element. -/
theorem exists_getLast?_eq_some {α : Type} {l : List α} (h : l ≠ []) :
    ∃ a, l.getLast? = some a := by
  cases hl : l.getLast? with
  | none => exact absurd (List.getLast?_eq_none_iff.mp hl) h
  | some a => exact ⟨a, rfl⟩

/-- Helper: one RWMH step appends the proposal (accept) or the current
point (reject), and leaves the bound distribution unchanged. -/
theorem rwmh_step_chain_eq (s : RandomWalkMH) (d : Distribution)
    (cur : Vector2) (r1 r2 lnU : ℚ) (hd : s.distribution = some d)
    (hc : s.chain.getLast? = some cur) :
    ((s.step r1 r2 lnU).1.chain =
        s.chain ++ [⟨cur.x + r1 * s.sigma, cur.y + r2 * s.sigma⟩] ∨
      (s.step r1 r2 lnU).1.chain = s.chain ++ [cur]) ∧
    (s.step r1 r2 lnU).1.distribution = s.distribution := by
  simp only [RandomWalkMH.step, hd, hc]
  split <;> simp

/-- Helper: chain growth and invariants across N RWMH steps. -/
theorem rwmh_stepN_chain_length (s : RandomWalkMH) (d : Distribution)
    (draws : ℕ → ℚ × ℚ × ℚ) (hd : s.distribution = some d)
    (hc : s.chain ≠ []) :
    ∀ N, (s.stepN draws N).chain.length = s.chain.length + N ∧
      (s.stepN draws N).distribution = s.distribution ∧
      (s.stepN draws N).chain ≠ [] := by
  intro N
  induction N with
  | zero => exact ⟨rfl, rfl, hc⟩
  | succ n ih =>
    obtain ⟨hlen, hdist, hne⟩ := ih
    obtain ⟨cur, hcur⟩ := exists_getLast?_eq_some hne
    have hstep := rwmh_step_chain_eq (s.stepN draws n) d cur
      (draws n).1 (draws n).2.1 (draws n).2.2 (hdist.trans hd) hcur
    refine ⟨?_, ?_, ?_⟩
    · rcases hstep.1 with h | h <;>
      · show (RandomWalkMH.stepN s draws (n + 1)).chain.length = _
        simp only [RandomWalkMH.stepN]
        rw [h]
        simp [hlen]
        omega
    · exact hstep.2.trans hdist
    · rcases hstep.1 with h | h <;>
      · show (RandomWalkMH.stepN s draws (n + 1)).chain ≠ []
        simp only [RandomWalkMH.stepN]
        rw [h]
        simp

/-- Helper: one HMC step appends the leapfrog endpoint (accept) or the
current point (reject), and leaves the bound distribution unchanged. -/
theorem hmc_step_chain_eq (s : HamiltonianMC) (d : Distribution)
    (cur : Vector2) (rp1 rp2 lnU : ℚ) (hd : s.distribution = some d)
    (hc : s.chain.getLast? = some cur) :
    ((s.step rp1 rp2 lnU).1.chain =
        s.chain ++ [(HamiltonianMC.integrate d s.epsilon s.L cur ⟨rp1, rp2⟩).1.1] ∨
      (s.step rp1 rp2 lnU).1.chain = s.chain ++ [cur]) ∧
    (s.step rp1 rp2 lnU).1.distribution = s.distribution := by
  simp only [HamiltonianMC.step, hd, hc]
  split <;> simp

/-- Helper: chain growth and invariants across N HMC steps. -/
theorem hmc_stepN_chain_length (s : HamiltonianMC)
    (d : Distribution) (draws : ℕ → ℚ × ℚ × ℚ) (hd : s.distribution = some d)
    (hc : s.chain ≠ []) :
    ∀ N, (s.stepN draws N).chain.length = s.chain.length + N ∧
      (s.stepN draws N).distribution = s.distribution ∧
      (s.stepN draws N).chain ≠ [] := by
  intro N
  induction N with
  | zero => exact ⟨rfl, rfl, hc⟩
  | succ n ih =>
    obtain ⟨hlen, hdist, hne⟩ := ih
    obtain ⟨cur, hcur⟩ := exists_getLast?_eq_some hne
    have hstep := hmc_step_chain_eq (s.stepN draws n) d cur
      (draws n).1 (draws n).2.1 (draws n).2.2 (hdist.trans hd) hcur
    refine ⟨?_, ?_, ?_⟩
    · rcases hstep.1 with h | h <;>
      · show (HamiltonianMC.stepN s draws (n + 1)).chain.length = _
        simp only [HamiltonianMC.stepN]
        rw [h]
        simp [hlen]
        omega
    · exact hstep.2.trans hdist
    · rcases hstep.1 with h | h <;>
      · show (HamiltonianMC.stepN s draws (n + 1)).chain ≠ []
        simp only [HamiltonianMC.stepN]
        rw [h]
        simp

/-- Helper: one MALA step appends the drift-plus-noise proposal
(accept) or the current point (reject). -/
theorem mala_step_chain_eq (s : LangevinMC) (d : Distribution)
    (cur : Vector2) (sq r1 r2 lnU : ℚ) (hd : s.distribution = some d)
    (hc : s.chain.getLast? = some cur) :
    ((s.step sq r1 r2 lnU).1.chain =
        s.chain ++
          [⟨(LangevinMC.proposalMean d s.epsilon cur).x + r1 * sq,
            (LangevinMC.proposalMean d s.epsilon cur).y + r2 * sq⟩] ∨
      (s.step sq r1 r2 lnU).1.chain = s.chain ++ [cur]) ∧
    (s.step sq r1 r2 lnU).1.distribution = s.distribution := by
  simp only [LangevinMC.step, hd, hc]
  split <;> simp

/-- Helper: chain growth and invariants across N MALA steps. -/
theorem mala_stepN_chain_length (s : LangevinMC) (d : Distribution)
    (draws : ℕ → ℚ × ℚ × ℚ × ℚ) (hd : s.distribution = some d)
    (hc : s.chain ≠ []) :
    ∀ N, (s.stepN draws N).chain.length = s.chain.length + N ∧
      (s.stepN draws N).distribution = s.distribution ∧
      (s.stepN draws N).chain ≠ [] := by
  intro N
  induction N with
  | zero => exact ⟨rfl, rfl, hc⟩
  | succ n ih =>
    obtain ⟨hlen, hdist, hne⟩ := ih
    obtain ⟨cur, hcur⟩ := exists_getLast?_eq_some hne
    have hstep := mala_step_chain_eq (s.stepN draws n) d cur
      (draws n).1 (draws n).2.1 (draws n).2.2.1 (draws n).2.2.2
      (hdist.trans hd) hcur
    refine ⟨?_, ?_, ?_⟩
    · rcases hstep.1 with h | h <;>
      · show (LangevinMC.stepN s draws (n + 1)).chain.length = _
        simp only [LangevinMC.stepN]
        rw [h]
        simp [hlen]
        omega
    · exact hstep.2.trans hdist
    · rcases hstep.1 with h | h <;>
      · show (LangevinMC.stepN s draws (n + 1)).chain ≠ []
        simp only [LangevinMC.stepN]
        rw [h]
        simp

/-- Helper: one NUTS step appends exactly one point and leaves the
bound distribution unchanged. -/
theorem nuts_step_chain_eq (s : NUTSState) (d : Distribution)
    (cur : Vector2) (mexp : ℚ → ℚ) (rng : Rng) (hd : s.distribution = some d)
    (hc : s.chain.getLast? = some cur) :
    (∃ pt, (NUTS.step s mexp rng).1.chain = s.chain ++ [pt]) ∧
    (NUTS.step s mexp rng).1.distribution = s.distribution := by
  simp only [NUTS.step, hd, hc]
  split <;> exact ⟨⟨_, rfl⟩, rfl⟩

/-- Helper: chain growth and invariants across N NUTS steps. -/
theorem nuts_stepN_chain_length (s : NUTSState) (d : Distribution)
    (mexp : ℚ → ℚ) (rng : Rng) (hd : s.distribution = some d)
    (hc : s.chain ≠ []) :
    ∀ N, (NUTS.stepN s mexp rng N).1.chain.length = s.chain.length + N ∧
      (NUTS.stepN s mexp rng N).1.distribution = s.distribution ∧
      (NUTS.stepN s mexp rng N).1.chain ≠ [] := by
  intro N
  induction N with
  | zero => exact ⟨rfl, rfl, hc⟩
  | succ n ih =>
    obtain ⟨hlen, hdist, hne⟩ := ih
    obtain ⟨cur, hcur⟩ := exists_getLast?_eq_some hne
    have hstep := nuts_step_chain_eq (NUTS.stepN s mexp rng n).1 d cur mexp
      (NUTS.stepN s mexp rng n).2 (hdist.trans hd) hcur
    obtain ⟨⟨pt, hpt⟩, hdist2⟩ := hstep
    refine ⟨?_, hdist2.trans hdist, ?_⟩
    · show (NUTS.stepN s mexp rng (n + 1)).1.chain.length = _
      simp only [NUTS.stepN]
      rw [hpt]
      simp [hlen]
      omega
    · show (NUTS.stepN s mexp rng (n + 1)).1.chain ≠ []
      simp only [NUTS.stepN]
      rw [hpt]
      simp

/-- Test fixture: the identically-zero density with trivial abstract
log-density/gradient fields, on the standard ±5 bounds (the degenerate
distribution of §7(b), also used to instantiate universally quantified
statements). -/
def zeroDist : Distribution :=
  ⟨fun _ => 0, fun _ => 0, fun _ => true, fun _ => ⟨0, 0⟩, ⟨-5, 5, -5, 5⟩⟩

/-- C1: for every sampler, `reset p` replaces the chain with `[p]`
(the origin when `p` is omitted); and for RWMH, HMC, NUTS and MALA,
after any N `step()` calls with a distribution set the chain has
length N + 1 — each step appends exactly one point, the proposal on
accept or the unchanged current point again on reject. -/
theorem chain_reset_and_step_protocol :
    (∀ (s : RandomWalkMH) (p : Option Vector2),
      (s.reset p).chain = [p.getD ⟨0, 0⟩]) ∧
    (∀ (s : HamiltonianMC) (p : Option Vector2),
      (s.reset p).chain = [p.getD ⟨0, 0⟩]) ∧
    (∀ (s : NUTSState) (p : Option Vector2),
      (NUTS.reset s p).chain = [p.getD ⟨0, 0⟩]) ∧
    (∀ (s : LangevinMC) (p : Option Vector2),
      (s.reset p).chain = [p.getD ⟨0, 0⟩]) ∧
    (∀ (s : GibbsSampler) (p : Option Vector2),
      (s.reset p).chain = [p.getD ⟨0, 0⟩]) ∧
    (∀ (s : RandomWalkMH) (d : Distribution) (p : Option Vector2)
      (draws : ℕ → ℚ × ℚ × ℚ) (N : ℕ), s.distribution = some d →
      ((s.reset p).stepN draws N).chain.length = N + 1) ∧
    (∀ (s : HamiltonianMC) (d : Distribution) (p : Option Vector2)
      (draws : ℕ → ℚ × ℚ × ℚ) (N : ℕ), s.distribution = some d →
      ((s.reset p).stepN draws N).chain.length = N + 1) ∧
    (∀ (s : NUTSState) (d : Distribution) (p : Option Vector2)
      (mexp : ℚ → ℚ) (rng : Rng) (N : ℕ), s.distribution = some d →
      (NUTS.stepN (NUTS.reset s p) mexp rng N).1.chain.length = N + 1) ∧
    (∀ (s : LangevinMC) (d : Distribution) (p : Option Vector2)
      (draws : ℕ → ℚ × ℚ × ℚ × ℚ) (N : ℕ), s.distribution = some d →
      ((s.reset p).stepN draws N).chain.length = N + 1) ∧
    (∀ (s : RandomWalkMH) (d : Distribution) (cur : Vector2) (r1 r2 lnU : ℚ),
      s.distribution = some d → s.chain.getLast? = some cur →
      (s.step r1 r2 lnU).1.chain =
          s.chain ++ [⟨cur.x + r1 * s.sigma, cur.y + r2 * s.sigma⟩] ∨
        (s.step r1 r2 lnU).1.chain = s.chain ++ [cur]) ∧
    (∀ (s : HamiltonianMC) (d : Distribution) (cur : Vector2) (rp1 rp2 lnU : ℚ),
      s.distribution = some d → s.chain.getLast? = some cur →
      (s.step rp1 rp2 lnU).1.chain =
          s.chain ++
            [(HamiltonianMC.integrate d s.epsilon s.L cur ⟨rp1, rp2⟩).1.1] ∨
        (s.step rp1 rp2 lnU).1.chain = s.chain ++ [cur]) ∧
    (∀ (s : NUTSState) (d : Distribution) (cur : Vector2) (mexp : ℚ → ℚ)
      (rng : Rng), s.distribution = some d → s.chain.getLast? = some cur →
      ∃ pt, (NUTS.step s mexp rng).1.chain = s.chain ++ [pt]) ∧
    (∀ (s : LangevinMC) (d : Distribution) (cur : Vector2) (sq r1 r2 lnU : ℚ),
      s.distribution = some d → s.chain.getLast? = some cur →
      (s.step sq r1 r2 lnU).1.chain =
          s.chain ++
            [⟨(LangevinMC.proposalMean d s.epsilon cur).x + r1 * sq,
              (LangevinMC.proposalMean d s.epsilon cur).y + r2 * sq⟩] ∨
        (s.step sq r1 r2 lnU).1.chain = s.chain ++ [cur]) := by
  refine ⟨fun s p => rfl, fun s p => rfl, fun s p => rfl, fun s p => rfl,
    fun s p => rfl, ?_, ?_, ?_, ?_, ?_, ?_, ?_, ?_⟩
  · intro s d p draws N hd
    have h := (rwmh_stepN_chain_length (s.reset p) d draws
      (by simpa [RandomWalkMH.reset] using hd)
      (by simp [RandomWalkMH.reset]) N).1
    have h2 : ((s.reset p).chain).length = 1 := by simp [RandomWalkMH.reset]
    omega
  · intro s d p draws N hd
    have h := (hmc_stepN_chain_length (s.reset p) d draws
      (by simpa [HamiltonianMC.reset] using hd)
      (by simp [HamiltonianMC.reset]) N).1
    have h2 : ((s.reset p).chain).length = 1 := by simp [HamiltonianMC.reset]
    omega
  · intro s d p mexp rng N hd
    have h := (nuts_stepN_chain_length (NUTS.reset s p) d mexp rng
      (by simpa [NUTS.reset] using hd)
      (by simp [NUTS.reset]) N).1
    have h2 : ((NUTS.reset s p).chain).length = 1 := by simp [NUTS.reset]
    omega
  · intro s d p draws N hd
    have h := (mala_stepN_chain_length (s.reset p) d draws
      (by simpa [LangevinMC.reset] using hd)
      (by simp [LangevinMC.reset]) N).1
    have h2 : ((s.reset p).chain).length = 1 := by simp [LangevinMC.reset]
    omega
  · exact fun s d cur r1 r2 lnU hd hc =>
      (rwmh_step_chain_eq s d cur r1 r2 lnU hd hc).1
  · exact fun s d cur rp1 rp2 lnU hd hc =>
      (hmc_step_chain_eq s d cur rp1 rp2 lnU hd hc).1
  · exact fun s d cur mexp rng hd hc =>
      (nuts_step_chain_eq s d cur mexp rng hd hc).1
  · exact fun s d cur sq r1 r2 lnU hd hc =>
      (mala_step_chain_eq s d cur sq r1 r2 lnU hd hc).1

/-- C1 witness: two RWMH steps after a default reset on the zero
fixture distribution leave a chain of length 3. -/
theorem chain_reset_and_step_protocol_witness :
    ((RandomWalkMH.reset ⟨1/2, [], some zeroDist, 0, 0⟩ none).stepN
      (fun _ => (1, 1, 1)) 2).chain.length = 2 + 1 :=
  chain_reset_and_step_protocol.2.2.2.2.2.1 ⟨1/2, [], some zeroDist, 0, 0⟩
    zeroDist none (fun _ => (1, 1, 1)) 2 rfl

/-- C3: the U-turn test stops (returns `false`) exactly when
`(qPlus−qMinus)·pMinus < 0` or `(qPlus−qMinus)·pPlus < 0`; on the
spec's two concrete inputs it returns `true` (continue) and `false`
(stop) respectively. -/
theorem nuts_checkUTurn_spec :
    (∀ qMinus qPlus pMinus pPlus : Vector2,
      NUTS.checkUTurn qMinus qPlus pMinus pPlus = false ↔
        vectorDot (vectorSubtract qPlus qMinus) pMinus < 0 ∨
        vectorDot (vectorSubtract qPlus qMinus) pPlus < 0) ∧
    NUTS.checkUTurn ⟨-1, 0⟩ ⟨1, 0⟩ ⟨1, 0⟩ ⟨1, 0⟩ = true ∧
    NUTS.checkUTurn ⟨-1, 0⟩ ⟨1, 0⟩ ⟨1, 0⟩ ⟨-1, 0⟩ = false := by
  refine ⟨?_, ?_, ?_⟩
  · intro qm qp pm pp
    simp only [NUTS.checkUTurn, Bool.and_eq_false_iff,
      decide_eq_false_iff_not, not_le]
  · norm_num [NUTS.checkUTurn, vectorDot, vectorSubtract]
  · norm_num [NUTS.checkUTurn, vectorDot, vectorSubtract]

/-- Helper: `(q, p)`-component of the HMC integration loop as an
iterated map. -/
def HamiltonianMC.leapfrogIter (dist : Distribution) (epsilon : ℚ) :
    ℕ → Vector2 × Vector2 → Vector2 × Vector2
  | 0, qp => qp
  | n + 1, qp =>
    HamiltonianMC.leapfrogIter dist epsilon n
      (HamiltonianMC.leapfrogStep dist epsilon qp.1 qp.2)

/-- Helper: `integrate` computes the iterate of `leapfrogStep`. -/
theorem HamiltonianMC.integrate_fst (dist : Distribution) (epsilon : ℚ) :
    ∀ (n : ℕ) (q p : Vector2),
      (HamiltonianMC.integrate dist epsilon n q p).1 =
        HamiltonianMC.leapfrogIter dist epsilon n (q, p) := by
  intro n
  induction n with
  | zero => intro q p; rfl
  | succ m ih =>
    intro q p
    simp only [HamiltonianMC.integrate, HamiltonianMC.leapfrogIter]
    exact ih _ _

/-- Helper: writing the momentum half of a leapfrog step through its
own position half (used to rewrite under the gradient). -/
theorem HamiltonianMC.leapfrogStep_snd (dist : Distribution) (epsilon : ℚ)
    (q p : Vector2) :
    (HamiltonianMC.leapfrogStep dist epsilon q p).2 =
      ⟨p.x + 1/2 * epsilon * (dist.gradient q).x +
          1/2 * epsilon *
            (dist.gradient (HamiltonianMC.leapfrogStep dist epsilon q p).1).x,
        p.y + 1/2 * epsilon * (dist.gradient q).y +
          1/2 * epsilon *
            (dist.gradient (HamiltonianMC.leapfrogStep dist epsilon q p).1).y⟩ := by
  simp only [HamiltonianMC.leapfrogStep]

/-- Helper: a single leapfrog step run forward from the flipped
endpoint undoes itself (exact arithmetic). -/
theorem HamiltonianMC.leapfrogStep_rev (dist : Distribution) (epsilon : ℚ)
    (q p : Vector2) :
    HamiltonianMC.leapfrogStep dist epsilon
      (HamiltonianMC.leapfrogStep dist epsilon q p).1
      (vectorNegate (HamiltonianMC.leapfrogStep dist epsilon q p).2) =
    (q, vectorNegate p) := by
  have hq2 :
      (HamiltonianMC.leapfrogStep dist epsilon
        (HamiltonianMC.leapfrogStep dist epsilon q p).1
        (vectorNegate (HamiltonianMC.leapfrogStep dist epsilon q p).2)).1 =
      q := by
    simp only [HamiltonianMC.leapfrogStep, vectorNegate]
    ext <;> ring
  have h2 :
      (HamiltonianMC.leapfrogStep dist epsilon
        (HamiltonianMC.leapfrogStep dist epsilon q p).1
        (vectorNegate (HamiltonianMC.leapfrogStep dist epsilon q p).2)).2 =
      vectorNegate p := by
    rw [HamiltonianMC.leapfrogStep_snd, hq2, HamiltonianMC.leapfrogStep_snd]
    simp only [vectorNegate]
    ext <;> ring
  exact Prod.ext hq2 h2

/-- Helper: iterating L leapfrog steps from the L-step endpoint with
negated momentum returns to the start with negated momentum. -/
theorem HamiltonianMC.leapfrogIter_rev (dist : Distribution) (epsilon : ℚ) :
    ∀ (n : ℕ) (qp : Vector2 × Vector2),
      HamiltonianMC.leapfrogIter dist epsilon n
        ((HamiltonianMC.leapfrogIter dist epsilon n qp).1,
          vectorNegate (HamiltonianMC.leapfrogIter dist epsilon n qp).2) =
      (qp.1, vectorNegate qp.2) := by
  have hsucc : ∀ (n : ℕ) (qp : Vector2 × Vector2),
      HamiltonianMC.leapfrogIter dist epsilon (n + 1) qp =
        HamiltonianMC.leapfrogStep dist epsilon
          (HamiltonianMC.leapfrogIter dist epsilon n qp).1
          (HamiltonianMC.leapfrogIter dist epsilon n qp).2 := by
    intro n
    induction n with
    | zero => intro qp; rfl
    | succ m ih =>
      intro qp
      show HamiltonianMC.leapfrogIter dist epsilon (m + 1)
        (HamiltonianMC.leapfrogStep dist epsilon qp.1 qp.2) = _
      rw [ih]
      rfl
  intro n
  induction n with
  | zero => intro qp; rfl
  | succ m ih =>
    intro qp
    rw [hsucc m qp]
    have hrev := HamiltonianMC.leapfrogStep_rev dist epsilon
      (HamiltonianMC.leapfrogIter dist epsilon m qp).1
      (HamiltonianMC.leapfrogIter dist epsilon m qp).2
    calc
      HamiltonianMC.leapfrogIter dist epsilon (m + 1)
        ((HamiltonianMC.leapfrogStep dist epsilon
            (HamiltonianMC.leapfrogIter dist epsilon m qp).1
            (HamiltonianMC.leapfrogIter dist epsilon m qp).2).1,
          vectorNegate (HamiltonianMC.leapfrogStep dist epsilon
            (HamiltonianMC.leapfrogIter dist epsilon m qp).1
            (HamiltonianMC.leapfrogIter dist epsilon m qp).2).2) =
        HamiltonianMC.leapfrogIter dist epsilon m
          ((HamiltonianMC.leapfrogIter dist epsilon m qp).1,
            vectorNegate (HamiltonianMC.leapfrogIter dist epsilon m qp).2) := by
          show HamiltonianMC.leapfrogIter dist epsilon m
            (HamiltonianMC.leapfrogStep dist epsilon _ _) = _
          rw [hrev]
      _ = (qp.1, vectorNegate qp.2) := ih qp

/-- C7 (amended): integrating L leapfrog steps forward from `(q, p)`
and then L further steps forward from the endpoint with negated
momentum `(q_L, −p_L)` returns to `(q, −p)` exactly — the position is
recovered, the momentum comes back negated (one further negation, as
`HamiltonianMC.step` itself performs, recovers `(q, p)`). -/
theorem leapfrog_reversibility (dist : Distribution) (epsilon : ℚ) (L : ℕ)
    (q p : Vector2) :
    (HamiltonianMC.integrate dist epsilon L
      (HamiltonianMC.integrate dist epsilon L q p).1.1
      (vectorNegate (HamiltonianMC.integrate dist epsilon L q p).1.2)).1 =
    (q, vectorNegate p) := by
  rw [HamiltonianMC.integrate_fst, HamiltonianMC.integrate_fst]
  exact HamiltonianMC.leapfrogIter_rev dist epsilon L (q, p)

/-- C7 counterexample: with the zero-gradient fixture, ε = 1, L = 1,
q = (0,0), p = (1,0), the double forward integration ends at
((0,0), (−1,0)), not at the start pair ((0,0), (1,0)) the claim
states. -/
theorem leapfrog_reversibility_cex :
    (HamiltonianMC.integrate zeroDist 1 1
      (HamiltonianMC.integrate zeroDist 1 1 ⟨0, 0⟩ ⟨1, 0⟩).1.1
      (vectorNegate (HamiltonianMC.integrate zeroDist 1 1 ⟨0, 0⟩ ⟨1, 0⟩).1.2)).1 ≠
    ((⟨0, 0⟩ : Vector2), (⟨1, 0⟩ : Vector2)) := by
  simp only [HamiltonianMC.integrate, HamiltonianMC.leapfrogStep, zeroDist,
    vectorNegate]
  intro h
  have hy := congrArg (fun r => r.2.x) h
  norm_num at hy

/-- C4: a MALA step accepts the proposal q' iff `ln U < logα` and
`logDensity(q')` is finite, with
`logα = logDensity(q') − logDensity(q) + logQ(q|q') − logQ(q'|q)`,
`logQ(to|from) = −‖to − μ(from)‖²/(2ε)` and
`μ(z) = z + (ε/2)·gradient(z)` (all spelled out primitively below);
on accept q' is appended to the chain, otherwise q is appended again.
The equational hypotheses name the spec-side quantities. -/
theorem mala_acceptance_rule (s : LangevinMC) (d : Distribution)
    (cur prop muC muP : Vector2) (sq r1 r2 lnU la : ℚ)
    (hd : s.distribution = some d) (hc : s.chain.getLast? = some cur)
    (hmuC : muC = ⟨cur.x + s.epsilon / 2 * (d.gradient cur).x,
      cur.y + s.epsilon / 2 * (d.gradient cur).y⟩)
    (hprop : prop = ⟨muC.x + r1 * sq, muC.y + r2 * sq⟩)
    (hmuP : muP = ⟨prop.x + s.epsilon / 2 * (d.gradient prop).x,
      prop.y + s.epsilon / 2 * (d.gradient prop).y⟩)
    (hla : la = d.logDensity prop - d.logDensity cur +
      (-((cur.x - muP.x) ^ 2 + (cur.y - muP.y) ^ 2) / (2 * s.epsilon)) -
      (-((prop.x - muC.x) ^ 2 + (prop.y - muC.y) ^ 2) / (2 * s.epsilon))) :
    ((lnU < la ∧ d.ldFinite prop = true) →
      (s.step sq r1 r2 lnU).1.chain = s.chain ++ [prop] ∧
      (s.step sq r1 r2 lnU).2 =
        [.langevin (d.gradient cur) muC sq, .proposal cur prop none,
          .accept prop]) ∧
    (¬(lnU < la ∧ d.ldFinite prop = true) →
      (s.step sq r1 r2 lnU).1.chain = s.chain ++ [cur] ∧
      (s.step sq r1 r2 lnU).2 =
        [.langevin (d.gradient cur) muC sq, .proposal cur prop none,
          .reject prop]) := by
  have hmuC2 : LangevinMC.proposalMean d s.epsilon cur = muC := by
    rw [hmuC]
    simp [LangevinMC.proposalMean]
  have hprop2 : prop =
      ⟨(LangevinMC.proposalMean d s.epsilon cur).x + r1 * sq,
        (LangevinMC.proposalMean d s.epsilon cur).y + r2 * sq⟩ := by
    rw [hprop, hmuC2]
  have hla2 : la = d.logDensity prop - d.logDensity cur +
      LangevinMC.logProposalDensity d s.epsilon prop cur -
      LangevinMC.logProposalDensity d s.epsilon cur prop := by
    rw [hla]
    simp only [LangevinMC.logProposalDensity, LangevinMC.proposalMean, hmuP,
      hmuC]
    ring
  simp only [LangevinMC.step, hd, hc]
  rw [← hprop2, ← hla2, hmuC2]
  constructor
  · intro hacc
    rw [if_pos hacc]
    exact ⟨rfl, rfl⟩
  · intro hrej
    rw [if_neg hrej]
    exact ⟨rfl, rfl⟩

/-- C4 witness: on the zero fixture with ε = 2 from (0,0), draws
sq = 1, r1 = 1, r2 = 0, ln U = −1, logα = 0 and the proposal (1,0) is
accepted and appended. -/
theorem mala_acceptance_rule_witness :
    ((⟨2, [⟨0, 0⟩], some zeroDist, 0, 0⟩ : LangevinMC).step 1 1 0 (-1)).1.chain =
      [⟨0, 0⟩] ++ [⟨1, 0⟩] ∧
    ((⟨2, [⟨0, 0⟩], some zeroDist, 0, 0⟩ : LangevinMC).step 1 1 0 (-1)).2 =
      [.langevin (zeroDist.gradient ⟨0, 0⟩) ⟨0, 0⟩ 1,
        .proposal ⟨0, 0⟩ ⟨1, 0⟩ none, .accept ⟨1, 0⟩] :=
  (mala_acceptance_rule ⟨2, [⟨0, 0⟩], some zeroDist, 0, 0⟩ zeroDist ⟨0, 0⟩
    ⟨1, 0⟩ ⟨0, 0⟩ ⟨1, 0⟩ 1 1 0 (-1) 0 rfl rfl (by ext <;> simp [zeroDist])
    (by ext <;> simp) (by ext <;> simp [zeroDist]) (by norm_num [zeroDist])).1
    ⟨by norm_num, rfl⟩

/-- Helper: the HMC integration loop records exactly n positions. -/
theorem HamiltonianMC.integrate_path_length (dist : Distribution)
    (epsilon : ℚ) :
    ∀ (n : ℕ) (q p : Vector2),
      (HamiltonianMC.integrate dist epsilon n q p).2.length = n := by
  intro n
  induction n with
  | zero => intro q p; rfl
  | succ m ih =>
    intro q p
    simp only [HamiltonianMC.integrate, List.length_cons, ih]

/-- Helper: the momentum field carried by a trajectory event (`none`
for every other event kind). -/
def eventMomentum : VisualizationEvent → Option Vector2
  | .trajectory _ m => m
  | _ => none

/-- C5 (amended): every HMC step records the full leapfrog integration
path of L+1 points and emits it as the first queued event, a
trajectory event that carries no momentum field (the source pushes
`{type, path}` only; the final momentum is negated for the Hamiltonian
computation but is not attached to the event). -/
theorem hmc_trajectory_event (s : HamiltonianMC) (d : Distribution)
    (cur : Vector2) (rp1 rp2 lnU : ℚ) (hd : s.distribution = some d)
    (hc : s.chain.getLast? = some cur) :
    (s.step rp1 rp2 lnU).2.head? =
      some (.trajectory
        (cur :: (HamiltonianMC.integrate d s.epsilon s.L cur ⟨rp1, rp2⟩).2)
        none) ∧
    (cur :: (HamiltonianMC.integrate d s.epsilon s.L cur ⟨rp1, rp2⟩).2).length =
      s.L + 1 := by
  constructor
  · simp only [HamiltonianMC.step, hd, hc]
    split <;> rfl
  · simp [HamiltonianMC.integrate_path_length]

/-- C5 witness: a concrete one-leapfrog HMC step emits the trajectory
event first, with a 2-point path and no momentum. -/
theorem hmc_trajectory_event_witness :
    ((⟨1, 1, [⟨0, 0⟩], some zeroDist, 0, 0⟩ : HamiltonianMC).step 1 0 (-1)).2.head? =
      some (.trajectory
        (⟨0, 0⟩ :: (HamiltonianMC.integrate zeroDist 1 1 ⟨0, 0⟩ ⟨1, 0⟩).2)
        none) ∧
    (⟨0, 0⟩ :: (HamiltonianMC.integrate zeroDist 1 1 ⟨0, 0⟩ ⟨1, 0⟩).2).length =
      1 + 1 :=
  hmc_trajectory_event ⟨1, 1, [⟨0, 0⟩], some zeroDist, 0, 0⟩ zeroDist ⟨0, 0⟩
    1 0 (-1) rfl rfl

/-- C5 counterexample: at the same concrete input the emitted
trajectory event's momentum field is `none`, while the claim requires
it to be the negated final momentum, a `some` value. -/
theorem hmc_trajectory_event_cex :
    (((⟨1, 1, [⟨0, 0⟩], some zeroDist, 0, 0⟩ : HamiltonianMC).step 1 0 (-1)).2.head?.map
      eventMomentum) = some none ∧
    some (vectorNegate
        (HamiltonianMC.integrate zeroDist 1 1 ⟨0, 0⟩ ⟨1, 0⟩).1.2) ≠
      (none : Option Vector2) := by
  constructor
  · have hgl : ([(⟨0, 0⟩ : Vector2)] : List Vector2).getLast? =
        some ⟨0, 0⟩ := rfl
    simp only [HamiltonianMC.step, hgl]
    split <;> rfl
  · simp

/-- C2 (amended): after building a half-tree whose stop flag is still
true, the outer loop adopts its proposal exactly when the uniform draw
is below `n_new / n_old` — the valid-point count accumulated BEFORE
this doubling, not `n_new/(n_old+n_new)`; the total count is then
updated to `n_old + n_new`, and the loop runs only while the stop flag
is true and fewer than `maxTreeDepth` doublings have happened. -/
theorem nuts_outer_accept_probability :
    (∀ (st : NutsLoopState) (v : ℤ) (tree : TreeState) (rng : Rng),
      ((tree.sPrime = true ∧
          rng.stream rng.idx < (tree.nPrime : ℚ) / (st.n : ℚ)) →
        (NUTS.combine st v tree rng).1.q = tree.qPrime) ∧
      (¬(tree.sPrime = true ∧
          rng.stream rng.idx < (tree.nPrime : ℚ) / (st.n : ℚ)) →
        (NUTS.combine st v tree rng).1.q = st.q) ∧
      (NUTS.combine st v tree rng).1.n = st.n + tree.nPrime ∧
      (NUTS.combine st v tree rng).1.j = st.j + 1) ∧
    (∀ (dist : Distribution) (deltaMax : ℚ) (mexp : ℚ → ℚ)
      (epsilon u H0 : ℚ) (st : NutsLoopState) (rem : ℕ) (rng : Rng),
      st.s = false →
      NUTS.outerLoop dist deltaMax mexp epsilon u H0 st rem rng =
        (st, rng)) ∧
    (∀ (dist : Distribution) (deltaMax : ℚ) (mexp : ℚ → ℚ)
      (epsilon u H0 : ℚ) (st : NutsLoopState) (rng : Rng),
      NUTS.outerLoop dist deltaMax mexp epsilon u H0 st 0 rng =
        (st, rng)) := by
  refine ⟨?_, ?_, ?_⟩
  · intro st v tree rng
    refine ⟨?_, ?_, rfl, rfl⟩
    · intro h
      simp only [NUTS.combine, NUTS.sampleUpdate, Rng.next]
      rw [if_pos h.1, if_pos h.2]
    · intro h
      simp only [NUTS.combine, NUTS.sampleUpdate, Rng.next]
      by_cases hs : tree.sPrime = true
      · rw [if_pos hs, if_neg (fun hlt => h ⟨hs, hlt⟩)]
      · rw [if_neg hs]
  · intro dist deltaMax mexp epsilon u H0 st rem rng hs
    cases rem with
    | zero => rfl
    | succ m =>
      show (if st.s then _ else _) = _
      rw [hs]
      simp
  · intro dist deltaMax mexp epsilon u H0 st rng
    rfl

/-- C2 counterexample: with `n_old = 1`, a half-tree with
`n_new = 1`, stop flag true, proposal (1,0), and a uniform draw of
7/10, the code adopts the proposal even though 7/10 is not below
`n_new/(n_old+n_new) = 1/2` — the claimed acceptance probability is
wrong. -/
theorem nuts_outer_accept_probability_cex :
    (NUTS.combine ⟨⟨0, 0⟩, ⟨0, 0⟩, ⟨0, 0⟩, ⟨0, 0⟩, ⟨0, 0⟩, 1, true, 0⟩ 1
        ⟨⟨0, 0⟩, ⟨0, 0⟩, ⟨0, 0⟩, ⟨0, 0⟩, ⟨1, 0⟩, 1, true, 0, 1⟩
        ⟨fun _ => 7/10, 0⟩).1.q = ⟨1, 0⟩ ∧
    ¬((7 : ℚ) / 10 < 1 / ((1 : ℚ) + 1)) := by
  constructor
  · simp only [NUTS.combine, NUTS.sampleUpdate, Rng.next]
    norm_num
  · norm_num

/-- C2 witness: the adoption rule applied at the same concrete input —
the stop flag holds and 7/10 < 1/1, so the proposal is adopted. -/
theorem nuts_outer_accept_probability_witness :
    (NUTS.combine ⟨⟨0, 0⟩, ⟨0, 0⟩, ⟨0, 0⟩, ⟨0, 0⟩, ⟨0, 0⟩, 1, true, 0⟩ 1
        ⟨⟨0, 0⟩, ⟨0, 0⟩, ⟨0, 0⟩, ⟨0, 0⟩, ⟨1, 0⟩, 1, true, 0, 1⟩
        ⟨fun _ => 7/10, 0⟩).1.q =
      (⟨⟨0, 0⟩, ⟨0, 0⟩, ⟨0, 0⟩, ⟨0, 0⟩, ⟨1, 0⟩, 1, true, 0, 1⟩ : TreeState).qPrime :=
  (nuts_outer_accept_probability.1
    ⟨⟨0, 0⟩, ⟨0, 0⟩, ⟨0, 0⟩, ⟨0, 0⟩, ⟨0, 0⟩, 1, true, 0⟩ 1
    ⟨⟨0, 0⟩, ⟨0, 0⟩, ⟨0, 0⟩, ⟨0, 0⟩, ⟨1, 0⟩, 1, true, 0, 1⟩
    ⟨fun _ => 7/10, 0⟩).1 ⟨rfl, by norm_num⟩

/-- Helper: under an identically-zero density every sampled bin
density is zero. -/
theorem zero_density_map (d : Distribution) (hzero : ∀ p, d.density p = 0)
    (n : ℕ) (f : ℕ → Vector2) :
    (List.range n).map (fun i => d.density (f i)) = List.replicate n 0 := by
  have hlen : ((List.range n).map (fun i => d.density (f i))).length = n := by
    simp
  conv_rhs => rw [← hlen]
  rw [List.eq_replicate_length]
  intro b hb
  obtain ⟨i, _, hbi⟩ := List.mem_map.mp hb
  rw [← hbi, hzero]

/-- C6 (amended): when the density is zero at every point, `marginalX`
and `marginalY` return 0, and the Gibbs inverse-CDF conditional
samplers complete without throwing — but they return a uniformly
jittered point inside the FIRST bin (`u = rand·0 = 0` and the
cumulative mass `0 ≥ 0` already at bin 0), not the last-bin midpoint
fall-through `xMax − dx/2`, which is unreachable here. -/
theorem degenerate_density_behavior (d : Distribution) (x y : ℚ)
    (steps n : ℕ) (yFixed xFixed urand jitter urand2 jitter2 : ℚ)
    (hn : 0 < n) (hzero : ∀ p, d.density p = 0) :
    d.marginalX x steps = 0 ∧ d.marginalY y steps = 0 ∧
    GibbsSampler.sampleConditionalX d n yFixed d.bounds urand jitter =
      d.bounds.xMin + jitter * ((d.bounds.xMax - d.bounds.xMin) / n) ∧
    GibbsSampler.sampleConditionalY d n xFixed d.bounds urand2 jitter2 =
      d.bounds.yMin + jitter2 * ((d.bounds.yMax - d.bounds.yMin) / n) := by
  obtain ⟨m, rfl⟩ : ∃ m, n = m + 1 := ⟨n - 1, by omega⟩
  refine ⟨by simp [Distribution.marginalX, hzero],
    by simp [Distribution.marginalY, hzero], ?_, ?_⟩
  · simp only [GibbsSampler.sampleConditionalX]
    rw [zero_density_map d hzero]
    simp only [List.sum_replicate, smul_zero, mul_zero, List.replicate_succ,
      GibbsSampler.scanCdf]
    norm_num
  · simp only [GibbsSampler.sampleConditionalY]
    rw [zero_density_map d hzero]
    simp only [List.sum_replicate, smul_zero, mul_zero, List.replicate_succ,
      GibbsSampler.scanCdf]
    norm_num

/-- C6 witness: the zero fixture with 2 bins — marginals are 0 and the
conditional draws land in the first bin, jittered. -/
theorem degenerate_density_behavior_witness :
    zeroDist.marginalX 0 100 = 0 ∧ zeroDist.marginalY 0 100 = 0 ∧
    GibbsSampler.sampleConditionalX zeroDist 2 0 zeroDist.bounds (1/2) (1/4) =
      zeroDist.bounds.xMin +
        1/4 * ((zeroDist.bounds.xMax - zeroDist.bounds.xMin) / ((2 : ℕ) : ℚ)) ∧
    GibbsSampler.sampleConditionalY zeroDist 2 0 zeroDist.bounds (1/2) (1/4) =
      zeroDist.bounds.yMin +
        1/4 * ((zeroDist.bounds.yMax - zeroDist.bounds.yMin) / ((2 : ℕ) : ℚ)) :=
  degenerate_density_behavior zeroDist 0 0 100 2 0 0 (1/2) (1/4) (1/2) (1/4)
    (by norm_num) (fun p => rfl)

/-- C6 counterexample: on the zero fixture (bounds ±5, 2 bins,
jitter 0) the conditional X draw returns −5, the first bin's left
edge — not the last-bin midpoint 5/2 that the claimed fall-through
would produce. -/
theorem degenerate_gibbs_cex :
    GibbsSampler.sampleConditionalX zeroDist 2 0 zeroDist.bounds (1/2) 0 =
      -5 ∧
    zeroDist.bounds.xMax -
        ((zeroDist.bounds.xMax - zeroDist.bounds.xMin) / ((2 : ℕ) : ℚ)) / 2 =
      5/2 ∧
    (-5 : ℚ) ≠ 5/2 := by
  refine ⟨?_, by norm_num [zeroDist], by norm_num⟩
  norm_num [GibbsSampler.sampleConditionalX, GibbsSampler.scanCdf, zeroDist,
    List.range_succ]

/-- C8 (amended): `Visualizer.reset` empties the queue and clears the
snapshot fields it assigns — current position, proposal position,
pending fields, accept/reject marker, trail, sample log, trajectory
state, momentum and the Langevin fields — but it does NOT touch
`proposalRadius`, `flashAccept` or `flashReject`, which keep whatever
values they had (a stale radius persists until the next proposal
event; a raised flash flag is lowered only by its own timer). -/
theorem visualizer_reset_fields (s : Visualizer) :
    (Visualizer.reset s).queue = [] ∧
    (Visualizer.reset s).currentPosition = none ∧
    (Visualizer.reset s).proposalPosition = none ∧
    (Visualizer.reset s).pendingPosition = none ∧
    (Visualizer.reset s).pendingSample = none ∧
    (Visualizer.reset s).proposalAccepted = none ∧
    (Visualizer.reset s).acceptedSamples = [] ∧
    (Visualizer.reset s).allSamples = [] ∧
    (Visualizer.reset s).trajectoryPath = none ∧
    (Visualizer.reset s).fullTrajectoryPath = none ∧
    (Visualizer.reset s).trajectoryAnimationIndex = 0 ∧
    (Visualizer.reset s).momentum = none ∧
    (Visualizer.reset s).langevinGradient = none ∧
    (Visualizer.reset s).langevinDriftPoint = none ∧
    (Visualizer.reset s).langevinNoiseRadius = 0 ∧
    (Visualizer.reset s).proposalRadius = s.proposalRadius ∧
    (Visualizer.reset s).flashAccept = s.flashAccept ∧
    (Visualizer.reset s).flashReject = s.flashReject :=
  ⟨rfl, rfl, rfl, rfl, rfl, rfl, rfl, rfl, rfl, rfl, rfl, rfl, rfl, rfl,
    rfl, rfl, rfl, rfl⟩

/-- C8 counterexample: from a state with a pending radius of 5 and
both flash flags raised, `reset` leaves all three in place, so the
claim that they return to their initial values (0 / false / false) is
false. -/
theorem visualizer_reset_fields_cex :
    ¬((Visualizer.reset
        { Visualizer.initial with
          proposalRadius := 5, flashAccept := true,
          flashReject := true }).proposalRadius = 0 ∧
      (Visualizer.reset
        { Visualizer.initial with
          proposalRadius := 5, flashAccept := true,
          flashReject := true }).flashAccept = false ∧
      (Visualizer.reset
        { Visualizer.initial with
          proposalRadius := 5, flashAccept := true,
          flashReject := true }).flashReject = false) := by
  intro h
  have h2 := h.2.1
  rw [show (Visualizer.reset
      { Visualizer.initial with
        proposalRadius := 5, flashAccept := true,
        flashReject := true }).flashAccept = true from rfl] at h2
  exact absurd h2 (by simp)

/-- Helper: folding a single event never touches the trail or the
capacity. -/
theorem Visualizer.processEvent_trail (s : Visualizer)
    (e : VisualizationEvent) :
    (s.processEvent e).acceptedSamples = s.acceptedSamples ∧
    (s.processEvent e).maxTrailLength = s.maxTrailLength := by
  cases e <;> simp only [Visualizer.processEvent] <;> (try split) <;> simp

/-- Helper: draining any queue through `processEvent` never touches
the trail or the capacity. -/
theorem Visualizer.foldl_processEvent_trail (q : List VisualizationEvent) :
    ∀ s : Visualizer,
      (q.foldl Visualizer.processEvent s).acceptedSamples =
        s.acceptedSamples ∧
      (q.foldl Visualizer.processEvent s).maxTrailLength =
        s.maxTrailLength := by
  induction q with
  | nil => exact fun s => ⟨rfl, rfl⟩
  | cons e rest ih =>
    intro s
    have h1 := Visualizer.processEvent_trail s e
    have h2 := ih (s.processEvent e)
    exact ⟨h2.1.trans h1.1, h2.2.trans h1.2⟩

/-- Helper: pushing one sample and evicting the oldest entry when over
capacity keeps the trail within capacity. -/
theorem trail_push_bound (l : List Vector2) (x : Vector2) (cap : ℕ)
    (h : l.length ≤ cap) :
    (if cap < (l ++ [x]).length then (l ++ [x]).drop 1 else l ++ [x]).length ≤
      cap := by
  split <;> simp_all

/-- Helper: the pending prologue preserves the trail bound (it pushes
at most one sample and evicts when over capacity) and the capacity. -/
theorem Visualizer.applyPending_trail (s : Visualizer)
    (hinv : s.acceptedSamples.length ≤ s.maxTrailLength) :
    (Visualizer.applyPending s).acceptedSamples.length ≤
      (Visualizer.applyPending s).maxTrailLength ∧
    (Visualizer.applyPending s).maxTrailLength = s.maxTrailLength := by
  unfold Visualizer.applyPending
  cases hp : s.pendingPosition with
  | none =>
    dsimp only
    cases hq : s.pendingSample with
    | none => exact ⟨hinv, rfl⟩
    | some sample => exact ⟨trail_push_bound s.acceptedSamples sample
        s.maxTrailLength hinv, rfl⟩
  | some p =>
    dsimp only
    cases hq : s.pendingSample with
    | none => exact ⟨hinv, rfl⟩
    | some sample => exact ⟨trail_push_bound s.acceptedSamples sample
        s.maxTrailLength hinv, rfl⟩

/-- Helper: `dequeueAll` preserves the trail bound and the capacity. -/
theorem Visualizer.dequeueAll_trail (s : Visualizer)
    (hinv : s.acceptedSamples.length ≤ s.maxTrailLength) :
    (Visualizer.dequeueAll s).acceptedSamples.length ≤
      (Visualizer.dequeueAll s).maxTrailLength ∧
    (Visualizer.dequeueAll s).maxTrailLength = s.maxTrailLength := by
  have hap := Visualizer.applyPending_trail s hinv
  have hf := Visualizer.foldl_processEvent_trail
    (Visualizer.applyPending s).queue
    { Visualizer.applyPending s with queue := [] }
  simp only [Visualizer.dequeueAll]
  constructor
  · rw [hf.1, hf.2]
    exact hap.1
  · rw [hf.2]
    exact hap.2

/-- Helper: the capacity setter trims until the trail fits, so the
bound holds for any assigned value. -/
theorem Visualizer.setMaxTrailLength_trail (s : Visualizer) (v : ℕ) :
    (s.setMaxTrailLength v).acceptedSamples.length ≤
      (s.setMaxTrailLength v).maxTrailLength ∧
    (s.setMaxTrailLength v).maxTrailLength = v := by
  refine ⟨?_, rfl⟩
  simp only [Visualizer.setMaxTrailLength, List.length_drop]
  omega

/-- Helper: one visualizer operation preserves the trail bound and a
positive capacity, provided any assigned capacity is positive. -/
theorem VisOp.apply_trail (s : Visualizer) (op : VisOp)
    (hinv : s.acceptedSamples.length ≤ s.maxTrailLength)
    (hcap : 1 ≤ s.maxTrailLength)
    (hop : ∀ v, op = VisOp.setCap v → 1 ≤ v) :
    (VisOp.apply s op).acceptedSamples.length ≤
      (VisOp.apply s op).maxTrailLength ∧
    1 ≤ (VisOp.apply s op).maxTrailLength := by
  cases op with
  | push e => exact ⟨hinv, hcap⟩
  | fold =>
    have h := Visualizer.dequeueAll_trail s hinv
    exact ⟨h.1, h.2 ▸ hcap⟩
  | setCap v =>
    have h := Visualizer.setMaxTrailLength_trail s v
    exact ⟨h.1, h.2 ▸ hop v rfl⟩
  | reset => exact ⟨by simp [VisOp.apply, Visualizer.reset], hcap⟩
  | initSim p =>
    refine ⟨?_, hcap⟩
    show ([p].length ≤ s.maxTrailLength)
    simpa using hcap

/-- C9 (amended): from any state whose trail fits its capacity and
whose capacity is at least 1, every sequence of event pushes, folds,
capacity assignments OF POSITIVE VALUES (the control surface enforces
a minimum of 10), resets and simulation initializations keeps
`acceptedSamples.length ≤ maxTrailLength`.  Positivity is needed
because an initialization seeds a one-element trail without checking
the capacity. -/
theorem trail_capacity_invariant (s : Visualizer) (ops : List VisOp)
    (hinv : s.acceptedSamples.length ≤ s.maxTrailLength)
    (hcap : 1 ≤ s.maxTrailLength)
    (hops : ∀ op ∈ ops, ∀ v, op = VisOp.setCap v → 1 ≤ v) :
    (VisOp.run s ops).acceptedSamples.length ≤
      (VisOp.run s ops).maxTrailLength := by
  induction ops generalizing s with
  | nil => exact hinv
  | cons op rest ih =>
    have h := VisOp.apply_trail s op hinv hcap
      (fun v hv => hops op (List.mem_cons_self op rest) v hv)
    exact ih (VisOp.apply s op) h.1 h.2
      (fun o ho v hv => hops o (List.mem_cons_of_mem op ho) v hv)

/-- C9 counterexample: assigning capacity 0 and then initializing the
simulation leaves a 1-element trail above the capacity, so the
invariant as claimed (for arbitrary capacity assignments) fails. -/
theorem trail_capacity_invariant_cex :
    ¬((VisOp.run Visualizer.initial
        [VisOp.setCap 0, VisOp.initSim ⟨0, 0⟩]).acceptedSamples.length ≤
      (VisOp.run Visualizer.initial
        [VisOp.setCap 0, VisOp.initSim ⟨0, 0⟩]).maxTrailLength) := by
  have h1 : (VisOp.run Visualizer.initial
      [VisOp.setCap 0, VisOp.initSim ⟨0, 0⟩]).acceptedSamples =
      [⟨0, 0⟩] := rfl
  have h2 : (VisOp.run Visualizer.initial
      [VisOp.setCap 0, VisOp.initSim ⟨0, 0⟩]).maxTrailLength = 0 := rfl
  rw [h1, h2]
  simp

/-- C9 witness: a push, a fold, a capacity assignment to 1, a reset
and an initialization from the construction-time state keep the trail
within capacity. -/
theorem trail_capacity_invariant_witness :
    (VisOp.run Visualizer.initial
      [VisOp.push (.accept ⟨1, 0⟩), VisOp.fold, VisOp.setCap 1,
        VisOp.reset, VisOp.initSim ⟨0, 0⟩]).acceptedSamples.length ≤
    (VisOp.run Visualizer.initial
      [VisOp.push (.accept ⟨1, 0⟩), VisOp.fold, VisOp.setCap 1,
        VisOp.reset, VisOp.initSim ⟨0, 0⟩]).maxTrailLength :=
  trail_capacity_invariant Visualizer.initial
    [VisOp.push (.accept ⟨1, 0⟩), VisOp.fold, VisOp.setCap 1,
      VisOp.reset, VisOp.initSim ⟨0, 0⟩]
    (by simp [Visualizer.initial]) (by simp [Visualizer.initial])
    (by
      intro op hop v hv
      subst hv
      simp at hop
      omega)

/-- C10: folding a proposal+accept pair does not move the snapshot:
`currentPosition` and the trail are untouched during the fold — the
accepted position lands in the pending fields and in the unbounded
`allSamples` log — and only the NEXT `dequeueAll` call applies it to
`currentPosition`. -/
theorem accept_fold_defers_position (s : Visualizer) (f t pos : Vector2)
    (r : Option ℚ)
    (hq : s.queue = [.proposal f t r, .accept pos])
    (hpp : s.pendingPosition = none) (hps : s.pendingSample = none) :
    (Visualizer.dequeueAll s).currentPosition = s.currentPosition ∧
    (Visualizer.dequeueAll s).acceptedSamples = s.acceptedSamples ∧
    (Visualizer.dequeueAll s).allSamples = s.allSamples ++ [pos] ∧
    (Visualizer.dequeueAll s).pendingPosition = some pos ∧
    (Visualizer.dequeueAll s).pendingSample = some pos ∧
    (Visualizer.dequeueAll (Visualizer.dequeueAll s)).currentPosition =
      some pos := by
  have hap : Visualizer.applyPending s = s := by
    unfold Visualizer.applyPending
    simp only [hpp, hps]
  simp only [Visualizer.dequeueAll, hap, hq, List.foldl,
    Visualizer.processEvent]
  refine ⟨trivial, trivial, trivial, trivial, trivial, ?_⟩
  simp only [Visualizer.applyPending, List.foldl]

/-- Fixture: the construction-time visualizer with a queued
proposal+accept pair. -/
def acceptQueueFixture : Visualizer :=
  { Visualizer.initial with
    queue := [.proposal ⟨0, 0⟩ ⟨1, 0⟩ none, .accept ⟨1, 0⟩] }

/-- C10 witness: on the concrete fixture the fold leaves
`currentPosition` and the trail alone, stores (1,0) as pending, logs
it in `allSamples`, and the next fold applies it. -/
theorem accept_fold_defers_position_witness :
    (Visualizer.dequeueAll acceptQueueFixture).currentPosition =
      acceptQueueFixture.currentPosition ∧
    (Visualizer.dequeueAll acceptQueueFixture).acceptedSamples =
      acceptQueueFixture.acceptedSamples ∧
    (Visualizer.dequeueAll acceptQueueFixture).allSamples =
      acceptQueueFixture.allSamples ++ [⟨1, 0⟩] ∧
    (Visualizer.dequeueAll acceptQueueFixture).pendingPosition =
      some ⟨1, 0⟩ ∧
    (Visualizer.dequeueAll acceptQueueFixture).pendingSample =
      some ⟨1, 0⟩ ∧
    (Visualizer.dequeueAll
      (Visualizer.dequeueAll acceptQueueFixture)).currentPosition =
      some ⟨1, 0⟩ :=
  accept_fold_defers_position acceptQueueFixture ⟨0, 0⟩ ⟨1, 0⟩ ⟨1, 0⟩ none
    rfl rfl rfl
